import Mathlib

/-!
Shallow embedding of the theme-variable and length-resolution engine of the
styled-native repository (src/theme.tsx and src/formatValues.ts), together
with proofs about the claims of its specification.

JavaScript numbers are modelled as `Option Q` over an explicit fraction
type `Q` (`none` standing for NaN); this captures exact decimal arithmetic
in the range the engine works in.  Infinity and exponential
`String(number)` renderings (which JavaScript only produces for magnitudes
≥ 1e21 or < 1e-6) are outside the model.
-/

namespace StyledNative

/-- A finite numeric value: a fraction with integer numerator and positive
natural denominator (kept computable and kernel-reducible throughout; the
representation is not forced to be reduced, and every observation — sign,
zero test, order, rendering — is representation-independent). -/
structure Q where
  num : Int
  den : Nat
deriving DecidableEq, Repr

/-- The rational with integer value `n`. -/
def qInt (n : Int) : Q := ⟨n, 1⟩

def qAdd (x y : Q) : Q := ⟨x.num * y.den + y.num * x.den, x.den * y.den⟩

def qSub (x y : Q) : Q := ⟨x.num * y.den - y.num * x.den, x.den * y.den⟩

def qMul (x y : Q) : Q := ⟨x.num * y.num, x.den * y.den⟩

/-- Division (the caller checks the divisor is non-zero); the divisor's
sign is moved into the numerator so the denominator stays natural. -/
def qDiv (x y : Q) : Q :=
  ⟨(if y.num < 0 then -(x.num * y.den) else x.num * y.den),
    x.den * y.num.natAbs⟩

/-- Zero test (`=== 0`), valid for every representation. -/
def qIsZero (x : Q) : Bool := x.num = 0

/-- Order by cross multiplication (denominators are positive). -/
def qLE (x y : Q) : Bool := x.num * y.den ≤ y.num * x.den

def qLT (x y : Q) : Bool := x.num * y.den < y.num * x.den

/-- Power of ten as a `Q`. -/
def pow10 : Nat → Q
  | 0 => qInt 1
  | n + 1 => qMul (qInt 10) (pow10 n)

/-- A JavaScript number: `none` is NaN, `some q` a (finite) numeric value. -/
def JSNum := Option Q
deriving DecidableEq

/-- A JavaScript primitive value as it occurs in style objects. -/
inductive JSVal where
  | num (q : Q)
  | nan
  | str (s : String)
  | undefV
  | boolV (b : Bool)
  | obj
deriving DecidableEq, Repr

/-- JavaScript truthiness. -/
def jsTruthy : JSVal → Bool
  | .num q => ¬ qIsZero q
  | .nan => false
  | .str s => s ≠ ""
  | .undefV => false
  | .boolV b => b
  | .obj => true

/-- `typeof v === 'number'`. -/
def jsIsNumber : JSVal → Bool
  | .num _ => true
  | .nan => true
  | _ => false

/-- `typeof v === 'string'`. -/
def jsIsString : JSVal → Bool
  | .str _ => true
  | _ => false

/-- Decimal digit character for `d < 10`. -/
def digitChar10 (d : Nat) : Char := Char.ofNat (48 + d)

/-- Big-endian decimal digits, driven by structural fuel so that the
kernel can evaluate it (the fuel is always sufficient: a number below
`10^fuel` needs at most `fuel` digits). -/
def natDigitsGo : Nat → Nat → List Char
  | 0, n => [digitChar10 n]
  | fuel + 1, n =>
    if n < 10 then [digitChar10 n]
    else natDigitsGo fuel (n / 10) ++ [digitChar10 (n % 10)]

/-- Big-endian decimal digits of a natural number (`0` renders as `"0"`). -/
def natDigits (n : Nat) : List Char := natDigitsGo n n

/-- Fractional decimal digits of `num/den` (stops when the remainder is 0,
bounded by the fuel; exact for every denominator of the form 2^a·5^b, which
is the only kind produced by decimal parsing). -/
def fracDigits (num den : Nat) : Nat → List Char
  | 0 => []
  | fuel + 1 =>
    if num = 0 then []
    else digitChar10 (num * 10 / den) :: fracDigits (num * 10 % den) den fuel

/-- The canonical JavaScript decimal rendering `String(q)` of a finite
number (plain notation, minus sign, no trailing fractional zeros). -/
def renderQ (q : Q) : String :=
  let sign := if q.num < 0 then "-" else ""
  let n := q.num.natAbs
  let d := q.den
  let frac := fracDigits (n % d) d 40
  sign ++ String.mk (natDigits (n / d)) ++
    (if frac.isEmpty then "" else "." ++ String.mk frac)

/-- `String(x)` for a JavaScript number, including NaN. -/
def renderNum : JSNum → String
  | none => "NaN"
  | some q => renderQ q

/-- `String(v)` for a JavaScript primitive. -/
def jsToString : JSVal → String
  | .num q => renderQ q
  | .nan => "NaN"
  | .str s => s
  | .undefV => "undefined"
  | .boolV b => if b then "true" else "false"
  | .obj => "[object Object]"

/-- JavaScript whitespace recognised by `trim` and by `parseFloat`. -/
def isJsWhitespace (c : Char) : Bool :=
  c = ' ' || c = '\t' || c = '\n' || c = '\r' ||
  c = Char.ofNat 11 || c = Char.ofNat 12 || c = Char.ofNat 160 ||
  c = Char.ofNat 65279

/-- `String.prototype.trim`. -/
def jsTrim (s : String) : String :=
  String.mk (((s.data.dropWhile isJsWhitespace).reverse.dropWhile
    isJsWhitespace).reverse)

/-- Value of a big-endian list of decimal digit characters. -/
def digitsVal (l : List Char) : Nat :=
  l.foldl (fun a c => 10 * a + (c.toNat - 48)) 0

/-- One exponent-part parse step of `parseFloat`: an `e`/`E`, an optional
sign and at least one digit; absent or malformed exponents are ignored
(the longest valid prefix wins, as in JavaScript). -/
def parseExponent (l : List Char) : Int :=
  match l with
  | c :: rest =>
    if c = 'e' ∨ c = 'E' then
      match rest with
      | '+' :: r2 =>
        let ds := r2.takeWhile Char.isDigit
        if ds.isEmpty then 0 else (digitsVal ds : Int)
      | '-' :: r2 =>
        let ds := r2.takeWhile Char.isDigit
        if ds.isEmpty then 0 else -(digitsVal ds : Int)
      | r2 =>
        let ds := r2.takeWhile Char.isDigit
        if ds.isEmpty then 0 else (digitsVal ds : Int)
    else 0
  | [] => 0

/-- `Number.parseFloat`: skip leading whitespace, optional sign, then the
longest decimal-literal prefix; `none` is NaN.  (The `Infinity` literal and
hexadecimal forms are outside the model.) -/
def jsParseFloat (s : String) : JSNum :=
  let l := s.data.dropWhile isJsWhitespace
  let (neg, l) : Bool × List Char :=
    match l with
    | '-' :: r => (true, r)
    | '+' :: r => (false, r)
    | r => (false, r)
  let intPart := l.takeWhile Char.isDigit
  let afterInt := l.dropWhile Char.isDigit
  let (fracPart, afterFrac) : List Char × List Char :=
    match afterInt with
    | '.' :: r => (r.takeWhile Char.isDigit, r.dropWhile Char.isDigit)
    | r => ([], r)
  if intPart.isEmpty ∧ fracPart.isEmpty then none
  else
    let mantissa : Q :=
      qAdd (qInt (digitsVal intPart))
        (qDiv (qInt (digitsVal fracPart)) (pow10 fracPart.length))
    let v : Q :=
      match parseExponent afterFrac with
      | Int.ofNat k => qMul mantissa (pow10 k)
      | Int.negSucc k => qDiv mantissa (pow10 (k + 1))
    some (if neg then ⟨-v.num, v.den⟩ else v)

/-- `ToNumber` on a string (the full string must be a numeric literal;
surrounding whitespace allowed; the empty string is 0; otherwise NaN). -/
def jsStringToNumber (s : String) : JSNum :=
  let t := jsTrim s
  if t = "" then some (qInt 0)
  else
    let l := t.data
    let (neg, l2) : Bool × List Char :=
      match l with
      | '-' :: r => (true, r)
      | '+' :: r => (false, r)
      | r => (false, r)
    let intPart := l2.takeWhile Char.isDigit
    let afterInt := l2.dropWhile Char.isDigit
    let (fracPart, afterFrac) : List Char × List Char :=
      match afterInt with
      | '.' :: r => (r.takeWhile Char.isDigit, r.dropWhile Char.isDigit)
      | r => ([], r)
    if intPart.isEmpty ∧ fracPart.isEmpty then none
    else
      let (e, rest) : Int × List Char :=
        match afterFrac with
        | c :: ('+' :: r2) =>
          if c = 'e' ∨ c = 'E' then
            ((digitsVal (r2.takeWhile Char.isDigit) : Int),
              if (r2.takeWhile Char.isDigit).isEmpty then [c] else
                r2.dropWhile Char.isDigit)
          else (0, afterFrac)
        | c :: ('-' :: r2) =>
          if c = 'e' ∨ c = 'E' then
            (-(digitsVal (r2.takeWhile Char.isDigit) : Int),
              if (r2.takeWhile Char.isDigit).isEmpty then [c] else
                r2.dropWhile Char.isDigit)
          else (0, afterFrac)
        | c :: r2 =>
          if c = 'e' ∨ c = 'E' then
            ((digitsVal (r2.takeWhile Char.isDigit) : Int),
              if (r2.takeWhile Char.isDigit).isEmpty then [c] else
                r2.dropWhile Char.isDigit)
          else (0, afterFrac)
        | [] => (0, [])
      if rest.isEmpty then
        let mantissa : Q :=
          qAdd (qInt (digitsVal intPart))
            (qDiv (qInt (digitsVal fracPart)) (pow10 fracPart.length))
        let v : Q :=
          match e with
          | Int.ofNat k => qMul mantissa (pow10 k)
          | Int.negSucc k => qDiv mantissa (pow10 (k + 1))
        some (if neg then ⟨-v.num, v.den⟩ else v)
      else none

/-- `ToNumber` on a primitive value. -/
def jsToNumber : JSVal → JSNum
  | .num q => some q
  | .nan => none
  | .str s => jsStringToNumber s
  | .undefV => none
  | .boolV b => some (qInt (if b then 1 else 0))
  | .obj => none

def numAdd (a b : JSNum) : JSNum :=
  match a, b with
  | some x, some y => some (qAdd x y)
  | _, _ => none

def numSub (a b : JSNum) : JSNum :=
  match a, b with
  | some x, some y => some (qSub x y)
  | _, _ => none

def numMul (a b : JSNum) : JSNum :=
  match a, b with
  | some x, some y => some (qMul x y)
  | _, _ => none

/-- Division; a zero divisor is mapped to NaN (JavaScript would produce a
signed infinity, which the model does not represent). -/
def numDiv (a b : JSNum) : JSNum :=
  match a, b with
  | some x, some y => if qIsZero y then none else some (qDiv x y)
  | _, _ => none

/-- Repack a JavaScript number into a value. -/
def jsNumToVal : JSNum → JSVal
  | none => .nan
  | some q => .num q

/-- The JavaScript `+` operator on primitives. -/
def jsAdd (a b : JSVal) : JSVal :=
  match a, b with
  | .str s, _ => .str (s ++ jsToString b)
  | _, .str s => .str (jsToString a ++ s)
  | _, _ => jsNumToVal (numAdd (jsToNumber a) (jsToNumber b))

/-- The `<=` comparison between two JavaScript numbers (false when either
side is NaN). -/
def numLE (a b : JSNum) : Bool :=
  match a, b with
  | some x, some y => qLE x y
  | _, _ => false

/-- The `=== 0` test on a JavaScript number (false for NaN). -/
def numIsZero : JSNum → Bool
  | some q => qIsZero q
  | none => false

/-- Truncation toward zero of a rational, as `ToInt32` starts from. -/
def truncQ (q : Q) : Int :=
  if q.num < 0 then -((q.num.natAbs / q.den : Nat) : Int)
  else ((q.num.natAbs / q.den : Nat) : Int)

/-- `ToUint32` of a primitive value (NaN goes to 0). -/
def jsToUint32 (v : JSVal) : Nat :=
  match jsToNumber v with
  | none => 0
  | some q => ((truncQ q).emod 4294967296).toNat

/-- Remove the first occurrence of `pat` from `l` (the behaviour of
JavaScript `s.replace(pat, '')` with a string pattern). -/
def replaceFirstL : List Char → List Char → List Char
  | [], _ => []
  | c :: rest, pat =>
    if pat.isPrefixOf (c :: rest) then (c :: rest).drop pat.length
    else c :: replaceFirstL rest pat

/-- `s.replace(pat, '')` on strings. -/
def replaceFirst (s pat : String) : String :=
  String.mk (replaceFirstL s.data pat.data)

/-- `String.prototype.startsWith`. -/
def jsStartsWith (s pre : String) : Bool :=
  pre.data.isPrefixOf s.data

/-! ## Style objects and viewport -/

/-- A style object: an ordered mapping from property names to raw values
(JavaScript object, keys unique). -/
def StyleObj := List (String × JSVal)
deriving DecidableEq, Repr

/-- Property read; an absent key yields `undefined`. -/
def getVal (style : StyleObj) (k : String) : JSVal :=
  match style.find? (fun p => p.1 = k) with
  | some p => p.2
  | none => .undefV

/-- Property write: updates the first binding in place, or appends a new
one (JavaScript key-insertion order). -/
def setVal (style : StyleObj) (k : String) (v : JSVal) : StyleObj :=
  match style with
  | [] => [(k, v)]
  | (k0, v0) :: rest =>
    if k0 = k then (k0, v) :: rest else (k0, v0) :: setVal rest k v

/-- `delete style[k]`. -/
def delVal (style : StyleObj) (k : String) : StyleObj :=
  style.filter (fun p => ¬ p.1 = k)

/-- Viewport dimensions (`ScaledSize`). -/
structure ScaledSize where
  width : Q
  height : Q
deriving DecidableEq, Repr

/-! ## formatValues.ts: the margin-aware dimension formatter -/

/-- `formatValue` from src/formatValues.ts, line by line: parses magnitude
and unit out of `style.width` / `style.height`, computes the margin sums
with raw JavaScript `+`, and returns the (possibly margin-adjusted)
dimension string, or `none` (undefined) when the dimension is absent. -/
def formatValue (style : StyleObj) (dimensions : ScaledSize)
    (key : String) : Option String :=
  let widthValue := jsParseFloat (jsToString (getVal style "width"))
  let heightValue := jsParseFloat (jsToString (getVal style "height"))
  let unitWidth :=
    replaceFirst (jsTrim (jsToString (getVal style "width")))
      (renderNum widthValue)
  let unitHeight :=
    replaceFirst (jsTrim (jsToString (getVal style "height")))
      (renderNum heightValue)
  let returnValueWidth := if unitWidth = "" then "px" else unitWidth
  let returnValueHeight := if unitHeight = "" then "px" else unitHeight
  let somaRightLeft := jsAdd (getVal style "marginLeft") (getVal style "marginRight")
  let somaTopBottom := jsAdd (getVal style "marginTop") (getVal style "marginBottom")
  if jsTruthy (getVal style "width") ∧ key = "width" then
    if numLE widthValue (jsToNumber somaRightLeft) then
      some (renderNum widthValue ++ returnValueWidth)
    else
      some (renderNum (numSub widthValue
        (numDiv (numMul (some (qInt 100)) (jsToNumber somaRightLeft))
          (some dimensions.width))) ++ returnValueWidth)
  else if jsTruthy (getVal style "height") ∧ key = "height" then
    if numLE heightValue (jsToNumber somaTopBottom) then
      some (renderNum heightValue ++ returnValueWidth)
    else
      some (renderNum (numSub heightValue
        (numDiv (numMul (some (qInt 100)) (jsToNumber somaTopBottom))
          (some dimensions.height))) ++ returnValueHeight)
  else
    none

/-! ## theme.tsx: theme model and the length unit converter -/

/-- The JSON-visible part of a theme object: a tree of nested mappings with
primitive leaves, as traversed by `JSON.stringify` in `findNestedObj`.
(The model treats property lookup on a primitive leaf as `undefined`;
variable names are assumed not to collide with string or function
intrinsics such as `length`.) -/
inductive JTree where
  | leaf (v : JSVal)
  | node (children : List (String × JTree))
deriving Repr

/-- A theme: the root metric, the JSON-visible structure searched for
variable values, and the optional elevation function. -/
structure Theme where
  rem : Q
  tree : JTree
  elevation : Option (JSVal → List (String × JSVal))

/-- Errors thrown by the engine, with the data their messages carry. -/
inductive ResolveError where
  | contractViolation (shown : String)
  | malformedLength (original : String)
  | unknownUnit (unit : String) (original : String)
  | undefinedColorVariable (name : String)
  | undefinedVariable (name : String)
deriving DecidableEq, Repr

instance {ε α : Type} [DecidableEq ε] [DecidableEq α] :
    DecidableEq (Except ε α) := fun a b =>
  match a, b with
  | .ok x, .ok y =>
    match decEq x y with
    | isTrue h => isTrue (congrArg Except.ok h)
    | isFalse h => isFalse (fun hc => h (Except.ok.inj hc))
  | .error x, .error y =>
    match decEq x y with
    | isTrue h => isTrue (congrArg Except.error h)
    | isFalse h => isFalse (fun hc => h (Except.error.inj hc))
  | .ok _, .error _ => isFalse (fun hc => Except.noConfusion hc)
  | .error _, .ok _ => isFalse (fun hc => Except.noConfusion hc)

/-- The human-readable message of each error, as built in theme.tsx. -/
def errMessage : ResolveError → String
  | .contractViolation shown => "expected " ++ shown ++ " to be a string"
  | .malformedLength original =>
    "length string " ++ "'" ++ original ++ "'" ++ " contains no unit"
  | .unknownUnit unit original =>
    "cannot parse length string " ++ "'" ++ original ++ "'" ++
      ", unknown unit " ++ "'" ++ unit ++ "'"
  | .undefinedColorVariable name =>
    "the color variable " ++ "'" ++ "$" ++ name ++ "'" ++
      " has not been defined in the theme."
  | .undefinedVariable name =>
    "the variable " ++ "'" ++ name ++ "'" ++
      " has not been defined in the theme."

/-- The unit text computed by `resolveLengthUnit` (and, with the same
expression, by `formatValue`): the trimmed input with the first occurrence
of the canonical rendering of its parsed magnitude deleted. -/
def stripUnit (s : String) : String :=
  replaceFirst (jsTrim s) (renderNum (jsParseFloat s))

/-- `resolveLengthUnit` from src/theme.tsx lines 145-170. -/
def resolveLengthUnit (str : JSVal) (theme : Theme)
    (windowDimensions : ScaledSize) : Except ResolveError JSVal :=
  if ¬ jsTruthy str ∨ jsIsNumber str then .ok str
  else if ¬ jsIsString str then .error (.contractViolation (jsToString str))
  else
    match str with
    | .str s =>
      let value := jsParseFloat s
      if numIsZero value then .ok (.num (qInt 0))
      else
        let unit := stripUnit s
        if unit = "" then .error (.malformedLength s)
        else if unit = "rem" then
          .ok (.num (match numMul value (some theme.rem) with
            | some q => if qIsZero q then qInt 8 else q
            | none => qInt 8))
        else if unit = "px" then .ok (jsNumToVal value)
        else if unit = "%" then .ok (.str s)
        else if unit = "vw" then
          .ok (jsNumToVal (numDiv (numMul value (some windowDimensions.width))
            (some (qInt 100))))
        else if unit = "vh" then
          .ok (jsNumToVal (numDiv (numMul value (some windowDimensions.height))
            (some (qInt 100))))
        else .error (.unknownUnit unit s)
    | _ => .error (.contractViolation (jsToString str))

/-! ## The variable registry and placeholder encoders -/

/-- The two process-wide maps of `themeVariables` in theme.tsx. -/
structure ThemeVars where
  hexForVarName : List (String × String)
  nameForHex : List (String × String)
deriving DecidableEq, Repr

/-- `Map.get`. -/
def mapGet (m : List (String × String)) (k : String) : Option String :=
  match m.find? (fun p => p.1 = k) with
  | some p => some p.2
  | none => none

/-- `Map.set`: update in place, or append preserving insertion order. -/
def mapSet (m : List (String × String)) (k v : String) :
    List (String × String) :=
  match m with
  | [] => [(k, v)]
  | (k0, v0) :: rest =>
    if k0 = k then (k0, v) :: rest else (k0, v0) :: mapSet rest k v

/-- The full mutable module state of the registry: the two maps, the color
counter `currentColorId` and the number of opaque tokens drawn so far from
the external generator. -/
structure RegState where
  vars : ThemeVars
  currentColorId : Nat
  hashCtr : Nat
deriving DecidableEq, Repr

/-- The state at module load: empty maps, `currentColorId = 1`. -/
def initRegState : RegState :=
  { vars := { hexForVarName := [], nameForHex := [] },
    currentColorId := 1, hashCtr := 0 }

/-- Lowercase hexadecimal digit character for `d < 16`. -/
def hexDigitChar (d : Nat) : Char :=
  if d < 10 then Char.ofNat (48 + d) else Char.ofNat (87 + d)

/-- Big-endian lowercase hexadecimal digits (`Number.prototype.toString(16)`
for a nonnegative integer). -/
def natHexDigits : Nat → List Char
  | n =>
    if h : n < 16 then [hexDigitChar n]
    else natHexDigits (n / 16) ++ [hexDigitChar (n % 16)]
decreasing_by exact Nat.div_lt_self (by omega) (by omega)

/-- `String.prototype.toUpperCase` on one ASCII character. -/
def jsUpperChar (c : Char) : Char :=
  if 'a' ≤ c ∧ c ≤ 'z' then Char.ofNat (c.toNat - 32) else c

/-- `'0'.padStart`-style left padding to 6 characters. -/
def pad6 (l : List Char) : List Char :=
  List.replicate (6 - l.length) '0' ++ l

/-- The deterministic color placeholder built from a counter value:
`'#' + i.toString(16).padStart(6, '0').toUpperCase() + '00'`. -/
def colorHash (i : Nat) : String :=
  "#" ++ String.mk (List.map jsUpperChar (pad6 (natHexDigits i))) ++ "00"

/-- `variableName.substring(1)`: the name without its leading sigil. -/
def dropSigil (name : String) : String := String.mk (name.data.drop 1)

/-- `resolveColorVariablePlaceholder` from theme.tsx lines 123-140.  Returns
the placeholder (or the two-token fallback pairing) and the new registry
state. -/
def resolveColorVariablePlaceholder (variableName : String)
    (fallback : Option String) (s : RegState) : String × RegState :=
  let s :=
    if (mapGet s.vars.hexForVarName variableName).isSome then s
    else
      let hash := colorHash s.currentColorId
      { vars := { hexForVarName := mapSet s.vars.hexForVarName variableName hash,
                  nameForHex := mapSet s.vars.nameForHex hash
                    (dropSigil variableName) },
        currentColorId := s.currentColorId + 1,
        hashCtr := s.hashCtr }
  match fallback with
  | some _ =>
    let varOne := (mapGet s.vars.hexForVarName variableName).getD "undefined"
    let varTwo := (mapGet s.vars.hexForVarName variableName).getD "undefined"
    (varOne ++ " " ++ varTwo, s)
  | none => ((mapGet s.vars.hexForVarName variableName).getD "undefined", s)

/-- `resolverLengsVariables` from theme.tsx lines 108-121.  The external
opaque token generator `hashGenerate` is modelled as a function `g` of the
number of tokens drawn so far. -/
def resolverLengsVariables (g : Nat → String) (variableName : String)
    (fallback : Option String) (s : RegState) : String × RegState :=
  let s :=
    if (mapGet s.vars.hexForVarName variableName).isSome then s
    else
      let hash := g s.hashCtr
      { vars := { hexForVarName := mapSet s.vars.hexForVarName variableName hash,
                  nameForHex := mapSet s.vars.nameForHex hash
                    (dropSigil variableName) },
        currentColorId := s.currentColorId,
        hashCtr := s.hashCtr + 1 }
  match fallback with
  | some _ =>
    let varOne := (mapGet s.vars.hexForVarName variableName).getD "undefined"
    let varTwo := (mapGet s.vars.hexForVarName variableName).getD "undefined"
    (varOne ++ " " ++ varTwo, s)
  | none => ((mapGet s.vars.hexForVarName variableName).getD "undefined", s)

/-! ## findNestedObj and the style resolver -/

/-- Value of a key in one nesting level; absent keys are `undefined`. -/
def childOf (cs : List (String × JTree)) (k : String) : Option JTree :=
  match cs.find? (fun p => p.1 = k) with
  | some p => some p.2
  | none => none

/-- Truthiness of a nested value (a sub-object is always truthy). -/
def jtreeTruthy : JTree → Bool
  | .leaf v => jsTruthy v
  | .node _ => true

/-- Whether a nesting level holds `k` with a truthy value
(`nestedValue && nestedValue[keyToFind]`). -/
def hasTruthyChild (cs : List (String × JTree)) (k : String) : Bool :=
  match childOf cs k with
  | some t => jtreeTruthy t
  | none => false

/-- The value substituted for a variable: a leaf is its primitive, a
sub-object becomes an opaque object value. -/
def jtreeToVal : JTree → JSVal
  | .leaf v => v
  | .node _ => .obj

mutual

/-- The accumulator pass of `findNestedObj` (theme.tsx lines 172-184): the
`JSON.stringify` replacer visits every nested value in pre-order and
overwrites `foundObj` at each level that holds the key truthily, so the
last visited match survives. -/
def findNestedT (k : String) (acc : Option (List (String × JTree))) :
    JTree → Option (List (String × JTree))
  | .leaf _ => acc
  | .node cs =>
    findNestedL k (if hasTruthyChild cs k then some cs else acc) cs

def findNestedL (k : String) (acc : Option (List (String × JTree))) :
    List (String × JTree) → Option (List (String × JTree))
  | [] => acc
  | (_, t) :: rest => findNestedL k (findNestedT k acc t) rest

end

/-- `findNestedObj(entireObj, keyToFind)`. -/
def findNestedObj (t : JTree) (k : String) :
    Option (List (String × JTree)) :=
  findNestedT k none t

/-- The static configuration the resolver closes over: the externally
defined color/length classification sets, the platform flag, and the
external calc/min/max expression evaluator (`convertValue`, returning a
number or NaN). -/
structure ResolveEnv (U : Type) where
  colorAttrs : List String
  lengthAttrs : List String
  plattformIsWeb : Bool
  convertValue : String → JSVal → U → JSNum
  vars : ThemeVars

/-- One iteration of the `for key in styleObject` loop of
`resolveThemeVariables` (theme.tsx lines 192-246): elevation expansion,
cursor filtering, color placeholder resolution, length placeholder
resolution, calc delegation and length unit conversion. -/
def processKey {U : Type} (env : ResolveEnv U) (theme : Theme)
    (windowDimensions : ScaledSize) (units : U)
    (style : StyleObj) (key : String) : Except ResolveError StyleObj := do
  let style :=
    if key = "elevation" then
      match theme.elevation with
      | some elev =>
        (elev (getVal style key)).foldl
          (fun st p => setVal st p.1 p.2) style
      | none => style
    else style
  let style :=
    if key = "cursor" ∧ ¬ env.plattformIsWeb then delVal style "cursor"
    else style
  let style ←
    if env.colorAttrs.contains key then
      let nameVariables :=
        match getVal style key with
        | .str s => mapGet env.vars.nameForHex s
        | _ => none
      match nameVariables with
      | some name =>
        match findNestedObj theme.tree name with
        | some findSize =>
          match childOf findSize name with
          | some c =>
            if jtreeTruthy c then pure (setVal style key (jtreeToVal c))
            else throw (.undefinedColorVariable name)
          | none => throw (.undefinedColorVariable name)
        | none => throw (.undefinedColorVariable name)
      | none => pure style
    else pure style
  if env.lengthAttrs.contains key then
    let nameVariables :=
      mapGet env.vars.nameForHex (jsToString (getVal style key) ++ "px")
    let style ←
      match nameVariables with
      | some name =>
        match findNestedObj theme.tree name with
        | some findSize =>
          match childOf findSize name with
          | some c =>
            if jtreeTruthy c then pure (setVal style key (jtreeToVal c))
            else throw (.undefinedVariable name)
          | none => throw (.undefinedVariable name)
        | none => throw (.undefinedVariable name)
      | none => pure style
    let keyValue := jsToString (getVal style key)
    let style :=
      if jsStartsWith keyValue "calc" ∨ jsStartsWith keyValue "max" ∨
          jsStartsWith keyValue "min" then
        match env.convertValue key (getVal style key) units with
        | some q => setVal style key (.num q)
        | none => style
      else style
    let resolved ← resolveLengthUnit (getVal style key) theme windowDimensions
    pure (setVal style key resolved)
  else
    pure style

/-- The JavaScript value of `formatValue`'s optional result. -/
def optStrToVal : Option String → JSVal
  | some s => .str s
  | none => .undefV

/-- `x || undefined`. -/
def orUndefined (v : JSVal) : JSVal := if jsTruthy v then v else .undefV

/-- The margin gate of theme.tsx line 253, exactly as written:
`marginLeft && marginRight & marginTop & marginBottom` — a logical AND on
the left, bitwise AND (on `ToInt32`/`ToUint32` images) between the other
three. -/
def marginGate (marginLeft marginRight marginTop marginBottom : JSVal) :
    Bool :=
  jsTruthy marginLeft ∧
    Nat.land (Nat.land (jsToUint32 marginRight) (jsToUint32 marginTop))
      (jsToUint32 marginBottom) ≠ 0

/-- `resolveThemeVariables` from theme.tsx lines 186-263: the per-property
pass over a snapshot of the object's keys, followed by the margin-gated
width/height recomputation. -/
def resolveThemeVariables {U : Type} (env : ResolveEnv U) (theme : Theme)
    (windowDimensions : ScaledSize) (units : U) (styleObject : StyleObj) :
    Except ResolveError StyleObj := do
  let keys := styleObject.map Prod.fst
  let style ← keys.foldlM (processKey env theme windowDimensions units)
    styleObject
  let marginLeft := orUndefined (getVal style "marginLeft")
  let marginRight := orUndefined (getVal style "marginRight")
  let marginTop := orUndefined (getVal style "marginTop")
  let marginBottom := orUndefined (getVal style "marginBottom")
  if marginGate marginLeft marginRight marginTop marginBottom then
    let widthValue := formatValue style windowDimensions "width"
    let heightValue := formatValue style windowDimensions "height"
    let w ← resolveLengthUnit (optStrToVal widthValue) theme windowDimensions
    let style := setVal style "width" w
    let h ← resolveLengthUnit (optStrToVal heightValue) theme windowDimensions
    let style := setVal style "height" h
    pure style
  else
    pure style

/-! ## Specification-side definitions

Definitions in this section follow the words of the specification (depth
first search order, uniqueness bookkeeping); they are compared against the
source-derived definitions above. -/

mutual

/-- All nesting levels of a tree in the pre-order in which the
`JSON.stringify` replacer visits them: a node's own level first, then the
levels inside each child from left to right. -/
def dfsLevelsT : JTree → List (List (String × JTree))
  | .leaf _ => []
  | .node cs => cs :: dfsLevelsL cs

def dfsLevelsL : List (String × JTree) → List (List (String × JTree))
  | [] => []
  | (_, t) :: rest => dfsLevelsT t ++ dfsLevelsL rest

end

/-- Fold keeping the last entry satisfying the predicate. -/
def lastMatch (ls : List (List (String × JTree))) (k : String)
    (acc : Option (List (String × JTree))) :
    Option (List (String × JTree)) :=
  ls.foldl (fun a cs => if hasTruthyChild cs k then some cs else a) acc

/-- The last nesting level, in depth-first visit order, holding `k`
truthily. -/
def lastDfsMatch (t : JTree) (k : String) :
    Option (List (String × JTree)) :=
  lastMatch (dfsLevelsT t) k none

/-- The first nesting level, in depth-first visit order, holding `k`
truthily — what the specification's words describe. -/
def firstDfsMatch (t : JTree) (k : String) :
    Option (List (String × JTree)) :=
  (dfsLevelsT t).find? (fun cs => hasTruthyChild cs k)

/-- Hexadecimal value of a digit character ('0'-'9', 'A'-'F'). -/
def hexCharVal (c : Char) : Nat :=
  if c.toNat ≥ 65 then c.toNat - 55 else c.toNat - 48

/-- Value of a big-endian list of hexadecimal digit characters (leading
zeros are harmless). -/
def unhex (l : List Char) : Nat :=
  l.foldl (fun a c => 16 * a + hexCharVal c) 0

/-- Recover the counter value a color placeholder was allocated from:
strip the leading `#`, the two trailing zeros, and read the hex digits. -/
def decodeColorHash (s : String) : Nat :=
  unhex ((s.data.drop 1).dropLast.dropLast)

/-- Classification of a registry value: every placeholder ever stored was
either allocated by the color counter below its current value or drawn
from the opaque generator below the current draw count. -/
def goodValue (g : Nat → String) (cid hc : Nat) (v : String) : Prop :=
  (∃ i, i < cid ∧ v = colorHash i) ∨ (∃ j, j < hc ∧ v = g j)

/-- The registry invariant: stored placeholders are pairwise distinct and
each is classified by `goodValue`. -/
def GoodReg (g : Nat → String) (s : RegState) : Prop :=
  (s.vars.hexForVarName.map Prod.snd).Nodup ∧
    ∀ v ∈ s.vars.hexForVarName.map Prod.snd,
      goodValue g s.currentColorId s.hashCtr v

/-- The freshness discipline of the opaque token generator: every draw is
a new string, never colliding with another draw nor with any color
placeholder. -/
def FreshGen (g : Nat → String) : Prop :=
  Function.Injective g ∧ ∀ i j, colorHash i ≠ g j

/-- Characters a written decimal magnitude may consist of. -/
def isMagChar (c : Char) : Bool :=
  c = '+' || c = '-' || c = '.' || c.isDigit

/-- Characters the canonical rendering of a finite number may consist of. -/
def isRenderChar (c : Char) : Bool :=
  c = '-' || c = '.' || c.isDigit

/-- The known length units. -/
def unitStrings : List String := ["rem", "px", "%", "vw", "vh"]

/-- Whether a string contains a decimal digit character. -/
def containsDigit (s : String) : Bool := s.data.any Char.isDigit

/-- The fallback-aware return value of both registry encoders. -/
def encoderReturn (fb : Option String) (v : String) : String :=
  match fb with
  | some _ => v ++ " " ++ v
  | none => v

/-- A concrete opaque token generator used to instantiate the freshness
hypothesis: the j-th draw is a run of j+1 copies of a letter. -/
def witGen (j : Nat) : String := String.mk (List.replicate (j + 1) 'h')

/-- A concrete theme with root metric 10 used to instantiate theorems. -/
def thWitness : Theme :=
  { rem := qInt 10, tree := .node [], elevation := none }

/-- A concrete theme whose root metric is 0. -/
def thZeroRem : Theme :=
  { rem := qInt 0, tree := .node [], elevation := none }

/-- A concrete viewport. -/
def vpWitness : ScaledSize := ⟨qInt 100, qInt 100⟩

/-- A concrete resolver environment: the usual color/length classification
sets (the sets themselves live in an external module and are parameters of
the embedding), web platform, no calc evaluator, empty registry. -/
def envPlain : ResolveEnv Unit :=
  { colorAttrs := ["color"],
    lengthAttrs := ["width", "height", "marginLeft", "marginRight",
      "marginTop", "marginBottom"],
    plattformIsWeb := true,
    convertValue := fun _ _ _ => none,
    vars := { hexForVarName := [], nameForHex := [] } }

/-- A concrete theme with root metric 16 and no mappings. -/
def thGate : Theme := { rem := qInt 16, tree := .node [], elevation := none }

/-- A theme structure holding the variable name `big` in two distinct
nested sub-mappings, with different values. -/
def trC5 : JTree :=
  .node [("sizes", .node [("big", .leaf (.str "10px"))]),
         ("colors", .node [("big", .leaf (.str "20px"))])]

/-- An environment whose registry binds the placeholder `#PH1` to the
variable name `big`. -/
def envC5 : ResolveEnv Unit :=
  { envPlain with
    vars := { hexForVarName := [("$big", "#PH1")],
              nameForHex := [("#PH1", "big")] } }

/-- The theme carrying `trC5`. -/
def thC5 : Theme := { rem := qInt 16, tree := trC5, elevation := none }

/-- An environment whose registry binds the first color placeholder to the
variable name `primary`. -/
def envC9 : ResolveEnv Unit :=
  { envPlain with
    vars := { hexForVarName := [("$primary", "#00000100")],
              nameForHex := [("#00000100", "primary")] } }

/-- A theme that does not define `primary` anywhere. -/
def thC9 : Theme :=
  { rem := qInt 16,
    tree := .node [("colors", .node [("secondary", .leaf (.str "blue"))])],
    elevation := none }

/-! ## Lemmas: depth-first search order of findNestedObj -/

mutual

theorem findNestedT_eq (k : String) (acc : Option (List (String × JTree)))
    (t : JTree) : findNestedT k acc t = lastMatch (dfsLevelsT t) k acc := by
  match t with
  | .leaf v => simp [findNestedT, dfsLevelsT, lastMatch]
  | .node cs =>
    rw [findNestedT, dfsLevelsT]
    rw [findNestedL_eq]
    simp [lastMatch]

theorem findNestedL_eq (k : String) (acc : Option (List (String × JTree)))
    (cs : List (String × JTree)) :
    findNestedL k acc cs = lastMatch (dfsLevelsL cs) k acc := by
  match cs with
  | [] => simp [findNestedL, dfsLevelsL, lastMatch]
  | (k0, t) :: rest =>
    rw [findNestedL, dfsLevelsL]
    rw [findNestedL_eq, findNestedT_eq]
    simp [lastMatch, List.foldl_append]

end

theorem findNestedObj_eq_lastDfsMatch (t : JTree) (k : String) :
    findNestedObj t k = lastDfsMatch t k := by
  rw [findNestedObj, lastDfsMatch, findNestedT_eq]

/-! ## Lemmas: association-list maps -/

theorem mapGet_cons (k0 v0 : String) (rest : List (String × String))
    (k : String) :
    mapGet ((k0, v0) :: rest) k =
      if k0 = k then some v0 else mapGet rest k := by
  by_cases h : k0 = k <;> simp [mapGet, List.find?, h]

theorem mapGet_set_self (m : List (String × String)) (k v : String) :
    mapGet (mapSet m k v) k = some v := by
  induction m with
  | nil => simp [mapSet, mapGet_cons]
  | cons p rest ih =>
    obtain ⟨k0, v0⟩ := p
    by_cases h : k0 = k <;> simp [mapSet, h, mapGet_cons, ih]

theorem mapGet_set_other (m : List (String × String)) (k v k2 : String)
    (h : k2 ≠ k) : mapGet (mapSet m k v) k2 = mapGet m k2 := by
  have hne : ¬ (k = k2) := fun hh => h hh.symm
  induction m with
  | nil => simp [mapSet, mapGet_cons, hne, mapGet]
  | cons p rest ih =>
    obtain ⟨k0, v0⟩ := p
    by_cases h0 : k0 = k
    · subst h0
      simp [mapSet, mapGet_cons, hne]
    · simp [mapSet, h0, mapGet_cons, ih]

theorem mapSet_values_of_not_mem (m : List (String × String)) (k v : String)
    (h : mapGet m k = none) :
    (mapSet m k v).map Prod.snd = m.map Prod.snd ++ [v] := by
  induction m with
  | nil => simp [mapSet]
  | cons p rest ih =>
    obtain ⟨k0, v0⟩ := p
    rw [mapGet_cons] at h
    by_cases h0 : k0 = k
    · simp [h0] at h
    · simp [h0] at h
      simp [mapSet, h0, ih h]

theorem mapGet_mem_values (m : List (String × String)) (k v : String)
    (h : mapGet m k = some v) : v ∈ m.map Prod.snd := by
  induction m with
  | nil => simp [mapGet] at h
  | cons p rest ih =>
    obtain ⟨k0, v0⟩ := p
    rw [mapGet_cons] at h
    by_cases h0 : k0 = k
    · simp [h0] at h
      simp [h]
    · simp [h0] at h
      simp [ih h]

theorem mapGet_ne_of_nodup (m : List (String × String)) (k1 k2 v1 v2 : String)
    (hnd : (m.map Prod.snd).Nodup) (hk : k1 ≠ k2)
    (h1 : mapGet m k1 = some v1) (h2 : mapGet m k2 = some v2) : v1 ≠ v2 := by
  induction m with
  | nil => simp [mapGet] at h1
  | cons p rest ih =>
    obtain ⟨k0, v0⟩ := p
    rw [mapGet_cons] at h1 h2
    simp only [List.map_cons, List.nodup_cons] at hnd
    by_cases e1 : k0 = k1
    · have e2 : ¬ k0 = k2 := by rw [e1]; exact hk
      simp [e1] at h1
      simp [e2] at h2
      subst h1
      exact fun hc => hnd.1 (hc ▸ mapGet_mem_values rest k2 v2 h2)
    · by_cases e2 : k0 = k2
      · simp [e1] at h1
        simp [e2] at h2
        subst h2
        exact fun hc => hnd.1 (hc ▸ mapGet_mem_values rest k1 v1 h1)
      · simp [e1] at h1
        simp [e2] at h2
        exact ih hnd.2 h1 h2

/-! ## Lemmas: injectivity of the color placeholder encoding -/

theorem hexCharVal_round (d : Nat) (h : d < 16) :
    hexCharVal (jsUpperChar (hexDigitChar d)) = d := by
  interval_cases d <;> decide

theorem unhex_go (l : List Char) (a : Nat) :
    l.foldl (fun a c => 16 * a + hexCharVal c) a =
      a * 16 ^ l.length + unhex l := by
  induction l generalizing a with
  | nil => simp [unhex]
  | cons c rest ih =>
    simp only [List.foldl_cons, unhex, List.length_cons]
    rw [ih, ih (16 * 0 + hexCharVal c)]
    ring

theorem unhex_append (l1 l2 : List Char) :
    unhex (l1 ++ l2) = unhex l1 * 16 ^ l2.length + unhex l2 := by
  rw [unhex, List.foldl_append, unhex_go]
  rfl

theorem unhex_upper_hex (n : Nat) :
    unhex (List.map jsUpperChar (natHexDigits n)) = n := by
  induction n using Nat.strong_induction_on with
  | _ n ih =>
    rw [natHexDigits]
    by_cases h : n < 16
    · simp only [h, dif_pos, List.map_cons, List.map_nil]
      simp [unhex, hexCharVal_round n h]
    · simp only [h, dif_neg, not_false_iff, List.map_append, List.map_cons,
        List.map_nil]
      rw [unhex_append]
      have h16 : n / 16 < n := Nat.div_lt_self (by omega) (by omega)
      rw [ih (n / 16) h16]
      have hmod : n % 16 < 16 := Nat.mod_lt _ (by omega)
      simp [unhex, hexCharVal_round _ hmod]
      omega

theorem unhex_zeros_prefix (k : Nat) (l : List Char) :
    unhex (List.replicate k '0' ++ l) = unhex l := by
  rw [unhex_append]
  have : unhex (List.replicate k '0') = 0 := by
    induction k with
    | zero => simp [unhex]
    | succ k2 ih =>
      rw [List.replicate_succ]
      simp only [unhex, List.foldl_cons]
      have : (16 * 0 + hexCharVal '0') = 0 := by decide
      rw [this]
      exact ih
  rw [this]
  simp

theorem decode_colorHash (i : Nat) : decodeColorHash (colorHash i) = i := by
  rw [decodeColorHash, colorHash]
  have hdata : ("#" ++ String.mk (List.map jsUpperChar (pad6 (natHexDigits i)))
      ++ "00").data =
      '#' :: (List.map jsUpperChar (pad6 (natHexDigits i)) ++ ['0', '0']) := by
    simp [String.data_append]
  rw [hdata]
  simp only [List.drop_succ_cons, List.drop_zero]
  have hdl : (List.map jsUpperChar (pad6 (natHexDigits i)) ++
      ['0', '0']).dropLast.dropLast =
      List.map jsUpperChar (pad6 (natHexDigits i)) := by
    have : (List.map jsUpperChar (pad6 (natHexDigits i)) ++ ['0', '0']) =
        (List.map jsUpperChar (pad6 (natHexDigits i)) ++ ['0']) ++ ['0'] := by
      simp
    rw [this, List.dropLast_concat, List.dropLast_concat]
  rw [hdl, pad6, List.map_append, List.map_replicate]
  have h0 : jsUpperChar '0' = '0' := by decide
  rw [h0, unhex_zeros_prefix, unhex_upper_hex]

theorem colorHash_injective : Function.Injective colorHash := by
  intro i j h
  have := decode_colorHash i
  rw [h, decode_colorHash] at this
  exact this.symm

/-! ## Lemmas: registry operations -/

theorem color_get_after (n : String) (fb : Option String) (s : RegState) :
    ∃ v, mapGet ((resolveColorVariablePlaceholder n fb s).2).vars.hexForVarName
      n = some v := by
  by_cases h : (mapGet s.vars.hexForVarName n).isSome
  · obtain ⟨v, hv⟩ := Option.isSome_iff_exists.mp h
    refine ⟨v, ?_⟩
    cases fb <;> simp [resolveColorVariablePlaceholder, h, hv]
  · refine ⟨colorHash s.currentColorId, ?_⟩
    cases fb <;> simp [resolveColorVariablePlaceholder, h, mapGet_set_self]

theorem color_get_other (n : String) (fb : Option String) (s : RegState)
    (k : String) (h : k ≠ n) :
    mapGet ((resolveColorVariablePlaceholder n fb s).2).vars.hexForVarName k =
      mapGet s.vars.hexForVarName k := by
  by_cases hp : (mapGet s.vars.hexForVarName n).isSome
  · cases fb <;> simp [resolveColorVariablePlaceholder, hp]
  · cases fb <;> simp [resolveColorVariablePlaceholder, hp, mapGet_set_other _ _ _ _ h]

theorem color_ret_eq (n : String) (fb : Option String) (s : RegState)
    (v : String)
    (h : mapGet ((resolveColorVariablePlaceholder n fb s).2).vars.hexForVarName
      n = some v) :
    (resolveColorVariablePlaceholder n fb s).1 = encoderReturn fb v := by
  by_cases hp : (mapGet s.vars.hexForVarName n).isSome
  · cases fb <;>
      simp only [resolveColorVariablePlaceholder, hp, if_pos] at h ⊢ <;>
      simp [h, encoderReturn]
  · cases fb <;>
      simp only [resolveColorVariablePlaceholder, hp, if_neg] at h ⊢ <;>
      simp at h ⊢ <;>
      simp [h, encoderReturn]

theorem lengs_get_after (g : Nat → String) (n : String) (fb : Option String)
    (s : RegState) :
    ∃ v, mapGet ((resolverLengsVariables g n fb s).2).vars.hexForVarName
      n = some v := by
  by_cases h : (mapGet s.vars.hexForVarName n).isSome
  · obtain ⟨v, hv⟩ := Option.isSome_iff_exists.mp h
    refine ⟨v, ?_⟩
    cases fb <;> simp [resolverLengsVariables, h, hv]
  · refine ⟨g s.hashCtr, ?_⟩
    cases fb <;> simp [resolverLengsVariables, h, mapGet_set_self]

theorem lengs_get_other (g : Nat → String) (n : String) (fb : Option String)
    (s : RegState) (k : String) (h : k ≠ n) :
    mapGet ((resolverLengsVariables g n fb s).2).vars.hexForVarName k =
      mapGet s.vars.hexForVarName k := by
  by_cases hp : (mapGet s.vars.hexForVarName n).isSome
  · cases fb <;> simp [resolverLengsVariables, hp]
  · cases fb <;> simp [resolverLengsVariables, hp, mapGet_set_other _ _ _ _ h]

theorem lengs_ret_eq (g : Nat → String) (n : String) (fb : Option String)
    (s : RegState) (v : String)
    (h : mapGet ((resolverLengsVariables g n fb s).2).vars.hexForVarName
      n = some v) :
    (resolverLengsVariables g n fb s).1 = encoderReturn fb v := by
  by_cases hp : (mapGet s.vars.hexForVarName n).isSome
  · cases fb <;>
      simp only [resolverLengsVariables, hp, if_pos] at h ⊢ <;>
      simp [h, encoderReturn]
  · cases fb <;>
      simp only [resolverLengsVariables, hp, if_neg] at h ⊢ <;>
      simp at h ⊢ <;>
      simp [h, encoderReturn]

theorem goodReg_color (g : Nat → String) (n : String) (fb : Option String)
    (s : RegState) (hg : FreshGen g) (h : GoodReg g s) :
    GoodReg g ((resolveColorVariablePlaceholder n fb s).2) := by
  by_cases hp : (mapGet s.vars.hexForVarName n).isSome
  · have : ((resolveColorVariablePlaceholder n fb s).2) = s := by
      cases fb <;> simp [resolveColorVariablePlaceholder, hp]
    rw [this]; exact h
  · have hnone : mapGet s.vars.hexForVarName n = none :=
      Option.not_isSome_iff_eq_none.mp hp
    have hstate : ((resolveColorVariablePlaceholder n fb s).2) =
        { vars := { hexForVarName := mapSet s.vars.hexForVarName n
                      (colorHash s.currentColorId),
                    nameForHex := mapSet s.vars.nameForHex
                      (colorHash s.currentColorId) (dropSigil n) },
          currentColorId := s.currentColorId + 1,
          hashCtr := s.hashCtr } := by
      cases fb <;> simp [resolveColorVariablePlaceholder, hp]
    rw [hstate]
    obtain ⟨hnd, hcl⟩ := h
    have hvals := mapSet_values_of_not_mem s.vars.hexForVarName n
      (colorHash s.currentColorId) hnone
    constructor
    · dsimp only
      simp only [hvals]
      rw [List.nodup_append]
      refine ⟨hnd, List.nodup_singleton _, ?_⟩
      intro x hx hx1
      simp only [List.mem_singleton] at hx1
      rcases hcl x hx with ⟨i, hi, hieq⟩ | ⟨j, hj, hjeq⟩
      · rw [hieq] at hx1
        have := colorHash_injective hx1
        omega
      · rw [hjeq] at hx1
        exact hg.2 s.currentColorId j hx1.symm
    · dsimp only
      intro v hv
      simp only [hvals, List.mem_append, List.mem_singleton] at hv
      rcases hv with hv | hv
      · rcases hcl v hv with ⟨i, hi, hieq⟩ | ⟨j, hj, hjeq⟩
        · exact Or.inl ⟨i, by omega, hieq⟩
        · exact Or.inr ⟨j, hj, hjeq⟩
      · exact Or.inl ⟨s.currentColorId, by omega, hv⟩

theorem goodReg_lengs (g : Nat → String) (n : String) (fb : Option String)
    (s : RegState) (hg : FreshGen g) (h : GoodReg g s) :
    GoodReg g ((resolverLengsVariables g n fb s).2) := by
  by_cases hp : (mapGet s.vars.hexForVarName n).isSome
  · have : ((resolverLengsVariables g n fb s).2) = s := by
      cases fb <;> simp [resolverLengsVariables, hp]
    rw [this]; exact h
  · have hnone : mapGet s.vars.hexForVarName n = none :=
      Option.not_isSome_iff_eq_none.mp hp
    have hstate : ((resolverLengsVariables g n fb s).2) =
        { vars := { hexForVarName := mapSet s.vars.hexForVarName n
                      (g s.hashCtr),
                    nameForHex := mapSet s.vars.nameForHex
                      (g s.hashCtr) (dropSigil n) },
          currentColorId := s.currentColorId,
          hashCtr := s.hashCtr + 1 } := by
      cases fb <;> simp [resolverLengsVariables, hp]
    rw [hstate]
    obtain ⟨hnd, hcl⟩ := h
    have hvals := mapSet_values_of_not_mem s.vars.hexForVarName n
      (g s.hashCtr) hnone
    constructor
    · dsimp only
      simp only [hvals]
      rw [List.nodup_append]
      refine ⟨hnd, List.nodup_singleton _, ?_⟩
      intro x hx hx1
      simp only [List.mem_singleton] at hx1
      rcases hcl x hx with ⟨i, hi, hieq⟩ | ⟨j, hj, hjeq⟩
      · rw [hieq] at hx1
        exact hg.2 i s.hashCtr hx1
      · rw [hjeq] at hx1
        have := hg.1 hx1
        omega
    · dsimp only
      intro v hv
      simp only [hvals, List.mem_append, List.mem_singleton] at hv
      rcases hv with hv | hv
      · rcases hcl v hv with ⟨i, hi, hieq⟩ | ⟨j, hj, hjeq⟩
        · exact Or.inl ⟨i, hi, hieq⟩
        · exact Or.inr ⟨j, by omega, hjeq⟩
      · exact Or.inr ⟨s.hashCtr, by omega, hv⟩

theorem color_state_stable (n : String) (fb : Option String) (s : RegState)
    (h : (mapGet s.vars.hexForVarName n).isSome) :
    (resolveColorVariablePlaceholder n fb s).2 = s := by
  cases fb <;> simp [resolveColorVariablePlaceholder, h]

theorem lengs_state_stable (g : Nat → String) (n : String) (fb : Option String)
    (s : RegState) (h : (mapGet s.vars.hexForVarName n).isSome) :
    (resolverLengsVariables g n fb s).2 = s := by
  cases fb <;> simp [resolverLengsVariables, h]

theorem freshGen_witGen : FreshGen witGen := by
  constructor
  · intro a b hab
    have h2 : List.replicate (a + 1) 'h' = List.replicate (b + 1) 'h' :=
      congrArg String.data hab
    have h3 := congrArg List.length h2
    simp at h3
    exact h3
  · intro i j h
    have h2 := congrArg String.data h
    rw [colorHash, witGen] at h2
    rw [List.replicate_succ] at h2
    simp [String.data_append] at h2

theorem goodReg_init (g : Nat → String) : GoodReg g initRegState := by
  constructor <;> simp [initRegState]

/-- C7: the placeholder registry binding is idempotent and injective.
Resolving the same variable name twice through the same encoder variant
(color counter or opaque-token generator, with the same fallback argument)
returns the identical result, and — from any state satisfying the registry
invariant, under the freshness hypothesis on the opaque token generator —
two distinct variable names resolved through the same variant never
receive the same placeholder. -/
theorem C7_registry_idempotent_injective (g : Nat → String) (s : RegState)
    (n1 n2 : String) (fb : Option String)
    (hg : FreshGen g) (hG : GoodReg g s) (hne : n1 ≠ n2) :
    ((resolveColorVariablePlaceholder n1 fb
        ((resolveColorVariablePlaceholder n1 fb s).2)).1 =
      (resolveColorVariablePlaceholder n1 fb s).1) ∧
    ((resolverLengsVariables g n1 fb
        ((resolverLengsVariables g n1 fb s).2)).1 =
      (resolverLengsVariables g n1 fb s).1) ∧
    ((resolveColorVariablePlaceholder n1 none s).1 ≠
      (resolveColorVariablePlaceholder n2 none
        ((resolveColorVariablePlaceholder n1 none s).2)).1) ∧
    ((resolverLengsVariables g n1 none s).1 ≠
      (resolverLengsVariables g n2 none
        ((resolverLengsVariables g n1 none s).2)).1) := by
  refine ⟨?_, ?_, ?_, ?_⟩
  · obtain ⟨v, hv⟩ := color_get_after n1 fb s
    have hstable := color_state_stable n1 fb
      ((resolveColorVariablePlaceholder n1 fb s).2) (by rw [hv]; rfl)
    have h2 : mapGet ((resolveColorVariablePlaceholder n1 fb
        ((resolveColorVariablePlaceholder n1 fb s).2)).2).vars.hexForVarName
        n1 = some v := by rw [hstable]; exact hv
    rw [color_ret_eq n1 fb _ v h2, color_ret_eq n1 fb s v hv]
  · obtain ⟨v, hv⟩ := lengs_get_after g n1 fb s
    have hstable := lengs_state_stable g n1 fb
      ((resolverLengsVariables g n1 fb s).2) (by rw [hv]; rfl)
    have h2 : mapGet ((resolverLengsVariables g n1 fb
        ((resolverLengsVariables g n1 fb s).2)).2).vars.hexForVarName
        n1 = some v := by rw [hstable]; exact hv
    rw [lengs_ret_eq g n1 fb _ v h2, lengs_ret_eq g n1 fb s v hv]
  · obtain ⟨v1, hv1⟩ := color_get_after n1 none s
    obtain ⟨v2, hv2⟩ := color_get_after n2 none
      ((resolveColorVariablePlaceholder n1 none s).2)
    have hv1b : mapGet ((resolveColorVariablePlaceholder n2 none
        ((resolveColorVariablePlaceholder n1 none s).2)).2).vars.hexForVarName
        n1 = some v1 := by
      rw [color_get_other n2 none _ n1 hne]
      exact hv1
    have hgood2 : GoodReg g ((resolveColorVariablePlaceholder n2 none
        ((resolveColorVariablePlaceholder n1 none s).2)).2) :=
      goodReg_color g n2 none _ hg (goodReg_color g n1 none s hg hG)
    have hvne : v1 ≠ v2 :=
      mapGet_ne_of_nodup _ n1 n2 v1 v2 hgood2.1 hne hv1b hv2
    rw [color_ret_eq n1 none s v1 hv1, color_ret_eq n2 none _ v2 hv2]
    exact hvne
  · obtain ⟨v1, hv1⟩ := lengs_get_after g n1 none s
    obtain ⟨v2, hv2⟩ := lengs_get_after g n2 none
      ((resolverLengsVariables g n1 none s).2)
    have hv1b : mapGet ((resolverLengsVariables g n2 none
        ((resolverLengsVariables g n1 none s).2)).2).vars.hexForVarName
        n1 = some v1 := by
      rw [lengs_get_other g n2 none _ n1 hne]
      exact hv1
    have hgood2 : GoodReg g ((resolverLengsVariables g n2 none
        ((resolverLengsVariables g n1 none s).2)).2) :=
      goodReg_lengs g n2 none _ hg (goodReg_lengs g n1 none s hg hG)
    have hvne : v1 ≠ v2 :=
      mapGet_ne_of_nodup _ n1 n2 v1 v2 hgood2.1 hne hv1b hv2
    rw [lengs_ret_eq g n1 none s v1 hv1, lengs_ret_eq g n2 none _ v2 hv2]
    exact hvne

/-- Witness for C7 at a concrete generator, the initial registry state and
the variable names `$a` and `$b`. -/
theorem C7_registry_witness :
    ((resolveColorVariablePlaceholder "$a" none
        ((resolveColorVariablePlaceholder "$a" none initRegState).2)).1 =
      (resolveColorVariablePlaceholder "$a" none initRegState).1) ∧
    ((resolverLengsVariables witGen "$a" none
        ((resolverLengsVariables witGen "$a" none initRegState).2)).1 =
      (resolverLengsVariables witGen "$a" none initRegState).1) ∧
    ((resolveColorVariablePlaceholder "$a" none initRegState).1 ≠
      (resolveColorVariablePlaceholder "$b" none
        ((resolveColorVariablePlaceholder "$a" none initRegState).2)).1) ∧
    ((resolverLengsVariables witGen "$a" none initRegState).1 ≠
      (resolverLengsVariables witGen "$b" none
        ((resolverLengsVariables witGen "$a" none initRegState).2)).1) :=
  C7_registry_idempotent_injective witGen initRegState "$a" "$b" none
    freshGen_witGen (goodReg_init witGen) (by decide)

/-- C6: `resolveLengthUnit` fails exactly on: a truthy value that is
neither a number nor a string (contract violation); a non-empty string
whose parsed magnitude is not the value 0 (NaN counts as non-zero, as in
the code's `value === 0` test) and whose computed unit text is empty
(malformed length); or such a string whose computed unit text is none of
rem, px, %, vw, vh (unknown unit, carrying the unit and the original
string).  Falsy and numeric inputs pass through unchanged, a parsed
magnitude of 0 returns 0 regardless of unit, and a known unit never
fails. -/
theorem C6_resolveLengthUnit_failure_characterization :
    (∀ (v : JSVal) (th : Theme) (vp : ScaledSize),
      jsTruthy v = false ∨ jsIsNumber v = true →
      resolveLengthUnit v th vp = .ok v) ∧
    (∀ (v : JSVal) (th : Theme) (vp : ScaledSize),
      jsTruthy v = true → jsIsNumber v = false → jsIsString v = false →
      resolveLengthUnit v th vp =
        .error (.contractViolation (jsToString v))) ∧
    (∀ (s : String) (th : Theme) (vp : ScaledSize),
      s ≠ "" → numIsZero (jsParseFloat s) = true →
      resolveLengthUnit (.str s) th vp = .ok (.num (qInt 0))) ∧
    (∀ (s : String) (th : Theme) (vp : ScaledSize),
      s ≠ "" → numIsZero (jsParseFloat s) = false → stripUnit s = "" →
      resolveLengthUnit (.str s) th vp = .error (.malformedLength s)) ∧
    (∀ (s : String) (th : Theme) (vp : ScaledSize),
      s ≠ "" → numIsZero (jsParseFloat s) = false →
      stripUnit s ∉ unitStrings →
      resolveLengthUnit (.str s) th vp =
        if stripUnit s = "" then .error (.malformedLength s)
        else .error (.unknownUnit (stripUnit s) s)) ∧
    (∀ (s : String) (th : Theme) (vp : ScaledSize),
      s ≠ "" → numIsZero (jsParseFloat s) = false →
      stripUnit s ∈ unitStrings →
      ∃ r, resolveLengthUnit (.str s) th vp = .ok r) := by
  refine ⟨?_, ?_, ?_, ?_, ?_, ?_⟩
  · intro v th vp h
    rcases h with h | h <;> simp [resolveLengthUnit, h]
  · intro v th vp h1 h2 h3
    cases v <;> simp_all [resolveLengthUnit, jsTruthy, jsIsNumber, jsIsString]
  · intro s th vp hs h0
    simp [resolveLengthUnit, jsTruthy, jsIsNumber, jsIsString, hs, h0]
  · intro s th vp hs h0 hu
    simp [resolveLengthUnit, jsTruthy, jsIsNumber, jsIsString, hs, h0, hu]
  · intro s th vp hs h0 hu
    simp only [unitStrings, List.mem_cons, List.not_mem_nil, or_false,
      not_or] at hu
    obtain ⟨h1, h2, h3, h4, h5⟩ := hu
    by_cases he : stripUnit s = ""
    · simp [resolveLengthUnit, jsTruthy, jsIsNumber, jsIsString, hs, h0, he]
    · simp [resolveLengthUnit, jsTruthy, jsIsNumber, jsIsString, hs, h0, he,
        h1, h2, h3, h4, h5]
  · intro s th vp hs h0 hu
    simp only [unitStrings, List.mem_cons, List.not_mem_nil, or_false] at hu
    have hne : stripUnit s ≠ "" := by
      rcases hu with h | h | h | h | h <;> rw [h] <;> decide
    rcases hu with h | h | h | h | h
    · cases hv : numMul (jsParseFloat s) (some th.rem) with
      | none =>
        exact ⟨.num (qInt 8), by
          simp [resolveLengthUnit, jsTruthy, jsIsNumber, jsIsString, hs, h0,
            hne, h, hv]⟩
      | some q =>
        exact ⟨.num (if qIsZero q then qInt 8 else q), by
          simp [resolveLengthUnit, jsTruthy, jsIsNumber, jsIsString, hs, h0,
            hne, h, hv]⟩
    · exact ⟨jsNumToVal (jsParseFloat s), by
        simp [resolveLengthUnit, jsTruthy, jsIsNumber, jsIsString, hs, h0,
          hne, h]⟩
    · exact ⟨.str s, by
        simp [resolveLengthUnit, jsTruthy, jsIsNumber, jsIsString, hs, h0,
          hne, h]⟩
    · exact ⟨jsNumToVal (numDiv (numMul (jsParseFloat s) (some vp.width))
        (some (qInt 100))), by
        simp [resolveLengthUnit, jsTruthy, jsIsNumber, jsIsString, hs, h0,
          hne, h]⟩
    · exact ⟨jsNumToVal (numDiv (numMul (jsParseFloat s) (some vp.height))
        (some (qInt 100))), by
        simp [resolveLengthUnit, jsTruthy, jsIsNumber, jsIsString, hs, h0,
          hne, h]⟩

/-- Witness for C6 at concrete inputs exercising every clause. -/
theorem C6_resolveLengthUnit_witness :
    resolveLengthUnit (.num (qInt 42)) thWitness vpWitness =
      .ok (.num (qInt 42)) ∧
    resolveLengthUnit (.boolV true) thWitness vpWitness =
      .error (.contractViolation "true") ∧
    resolveLengthUnit (.str "0px") thWitness vpWitness = .ok (.num (qInt 0)) ∧
    resolveLengthUnit (.str "5") thWitness vpWitness =
      .error (.malformedLength "5") ∧
    resolveLengthUnit (.str "10xy") thWitness vpWitness =
      .error (.unknownUnit "xy" "10xy") ∧
    ∃ r, resolveLengthUnit (.str "2rem") thWitness vpWitness = .ok r := by
  obtain ⟨p1, p2, p3, p4, p5, p6⟩ :=
    C6_resolveLengthUnit_failure_characterization
  refine ⟨p1 (.num (qInt 42)) thWitness vpWitness (Or.inr rfl),
    p2 (.boolV true) thWitness vpWitness rfl rfl rfl,
    p3 "0px" thWitness vpWitness (by decide) (by decide),
    p4 "5" thWitness vpWitness (by decide) (by decide) (by decide),
    ?_,
    p6 "2rem" thWitness vpWitness (by decide) (by decide) (by decide)⟩
  have h := p5 "10xy" thWitness vpWitness (by decide) (by decide) (by decide)
  rw [h]
  decide

/-- C3 counterexample: `resolveLengthUnit('2rem')` under a theme whose
root metric is 0 evaluates to the number 8, not 16 = 2 × default 8 — the
fallback of the code's `value * theme.rem || 8` applies to the whole
product, not to the root metric. -/
theorem C3_rem_zero_counterexample :
    resolveLengthUnit (.str "2rem") thZeroRem vpWitness =
      .ok (.num (qInt 8)) ∧
    (JSVal.num (qInt 8) : JSVal) ≠ .num (qInt 16) := by
  constructor
  · decide
  · decide

/-- C3 (amended): on a string whose parsed magnitude is a non-zero `v` and
whose computed unit is `rem`, `resolveLengthUnit` returns `v` times the
root metric when that product is non-zero, and otherwise the fallback 8 —
the fallback applies to the product (so '2rem' with root metric 10 yields
20, but with root metric 0 it yields 8, not 16). -/
theorem C3_rem_conversion (s : String) (th : Theme) (vp : ScaledSize)
    (v : Q) (hp : jsParseFloat s = some v) (hv : qIsZero v = false)
    (hu : stripUnit s = "rem") :
    resolveLengthUnit (.str s) th vp =
      .ok (.num (if qIsZero (qMul v th.rem) then qInt 8
        else qMul v th.rem)) := by
  have hs : s ≠ "" := by
    intro he
    rw [he] at hp
    exact Option.noConfusion hp
  have h0 : numIsZero (jsParseFloat s) = false := by
    rw [hp, numIsZero, hv]
  have hne : stripUnit s ≠ "" := by rw [hu]; decide
  simp [resolveLengthUnit, jsTruthy, jsIsNumber, jsIsString, hs, h0, hne, hu,
    hp, numMul, numIsZero, hv]

/-- Witness for C3: the specification's own example, '2rem' with root
metric 10 yielding 20. -/
theorem C3_rem_conversion_witness :
    resolveLengthUnit (.str "2rem") thWitness vpWitness =
      .ok (.num (qInt 20)) := by
  have h := C3_rem_conversion "2rem" thWitness vpWitness (qInt 2)
    (by decide) (by decide) (by decide)
  rw [h]
  decide

/-- C1 evaluation at the failing input: with margins 1, 2, 1, 1 — all
four present and truthy — `resolveThemeVariables` leaves `width` at 50,
because the gate `marginLeft && marginRight & marginTop & marginBottom`
computes the bitwise conjunction 2 & 1 & 1 = 0; the logical-AND gate of
the claim would have invoked the Dimension Formatter, which at this point
returns '47px'. -/
theorem C1_margin_gate_bitwise_code_eval :
    resolveThemeVariables envPlain thGate vpWitness ()
      [("width", .str "50px"), ("marginLeft", .num (qInt 1)),
       ("marginRight", .num (qInt 2)), ("marginTop", .num (qInt 1)),
       ("marginBottom", .num (qInt 1))] =
      .ok [("width", .num (qInt 50)), ("marginLeft", .num (qInt 1)),
       ("marginRight", .num (qInt 2)), ("marginTop", .num (qInt 1)),
       ("marginBottom", .num (qInt 1))] ∧
    jsTruthy (.num (qInt 1)) = true ∧ jsTruthy (.num (qInt 2)) = true ∧
    marginGate (.num (qInt 1)) (.num (qInt 2)) (.num (qInt 1))
      (.num (qInt 1)) = false ∧
    formatValue [("width", .num (qInt 50)), ("marginLeft", .num (qInt 1)),
      ("marginRight", .num (qInt 2)), ("marginTop", .num (qInt 1)),
      ("marginBottom", .num (qInt 1))] vpWitness "width" = some "47px" := by
  decide

/-- C2 evaluation at the failing input: in the margin-dominance branch for
`height`, `formatValue` appends the *width's* unit (line 22 of
formatValues.ts uses `returnValueWidth`), so a 5px height with a 50vw
width yields '5vw', not '5px' as the claim states. -/
theorem C2_height_dominance_unit_code_eval :
    formatValue [("height", .str "5px"), ("width", .str "50vw"),
      ("marginTop", .num (qInt 3)), ("marginBottom", .num (qInt 3))]
      vpWitness "height" = some "5vw" ∧
    ("5vw" : String) ≠ "5px" := by decide

/-- C4 evaluation at the failing input: a missing `marginRight` makes the
margin sum `10 + undefined = NaN`, which propagates into the adjusted
width, so the call returns 'NaNpx' instead of the '40px' the claim
states. -/
theorem C4_missing_margin_nan_code_eval :
    formatValue [("width", .str "50px"), ("marginLeft", .num (qInt 10))]
      vpWitness "width" = some "NaNpx" ∧
    ("NaNpx" : String) ≠ "40px" := by decide

theorem qLE_false_of_qLT (x y : Q) (h : qLT x y = true) :
    qLE y x = false := by
  simp [qLT] at h
  simp [qLE]
  omega

/-- C8: whenever the width is present and truthy, parses to magnitude `v`,
both horizontal margins are numbers `a` and `b` with `a + b < v`, and the
viewport width is non-zero, `formatValue` returns the rendering of
`v − 100·(a+b)/viewport.width` followed by the width's own unit (default
'px'). -/
theorem C8_width_margin_adjustment (style : StyleObj) (vp : ScaledSize)
    (a b v : Q)
    (hw : jsTruthy (getVal style "width") = true)
    (hv : jsParseFloat (jsToString (getVal style "width")) = some v)
    (hml : getVal style "marginLeft" = .num a)
    (hmr : getVal style "marginRight" = .num b)
    (hgt : qLT (qAdd a b) v = true)
    (hvp : qIsZero vp.width = false) :
    formatValue style vp "width" =
      some (renderQ (qSub v (qDiv (qMul (qInt 100) (qAdd a b)) vp.width)) ++
        (if stripUnit (jsToString (getVal style "width")) = "" then "px"
         else stripUnit (jsToString (getVal style "width")))) := by
  have hle := qLE_false_of_qLT (qAdd a b) v hgt
  simp only [formatValue, hv, hml, hmr, jsAdd, jsToNumber, numAdd,
    jsNumToVal, numLE, hw, numMul, numDiv, numSub, renderNum, hvp,
    Bool.false_eq_true, if_false, stripUnit, hle]
  simp [hw]

/-- Witness for C8: the specification's own example, width '50px' with
margins 10 and 10 on a viewport of width 100 yields '30px'. -/
theorem C8_width_margin_adjustment_witness :
    formatValue [("width", .str "50px"), ("marginLeft", .num (qInt 10)),
      ("marginRight", .num (qInt 10))] vpWitness "width" = some "30px" := by
  have h := C8_width_margin_adjustment
    [("width", .str "50px"), ("marginLeft", .num (qInt 10)),
      ("marginRight", .num (qInt 10))] vpWitness (qInt 10) (qInt 10)
    (qInt 50) (by decide) (by decide) (by decide) (by decide) (by decide)
    (by decide)
  rw [h]
  decide

/-- C9: processing a color property whose value is a registered
placeholder with no backing entry anywhere in the theme fails with the
error naming that variable — both for the single property step and for
`resolveThemeVariables` on an object holding that property. -/
theorem C9_undefined_color_variable (U : Type) (env : ResolveEnv U)
    (theme : Theme) (wd : ScaledSize) (units : U) (style : StyleObj)
    (key pv name : String)
    (hke : key ≠ "elevation") (hkc : key ≠ "cursor")
    (hcol : env.colorAttrs.contains key = true)
    (hval : getVal style key = .str pv)
    (hreg : mapGet env.vars.nameForHex pv = some name)
    (habs : (findNestedObj theme.tree name).isNone = true) :
    processKey env theme wd units style key =
      .error (.undefinedColorVariable name) ∧
    resolveThemeVariables env theme wd units [(key, .str pv)] =
      .error (.undefinedColorVariable name) := by
  have hnone : findNestedObj theme.tree name = none :=
    Option.isNone_iff_eq_none.mp habs
  have hmem : key ∈ env.colorAttrs := by
    simpa using hcol
  have hgen : ∀ st : StyleObj, getVal st key = .str pv →
      processKey env theme wd units st key =
        .error (.undefinedColorVariable name) := by
    intro st hv2
    simp [processKey, hke, hkc, hmem, hv2, hreg, hnone, Bind.bind,
      Except.bind, throw, throwThe, MonadExceptOf.throw]
  refine ⟨hgen style hval, ?_⟩
  have hsingle : getVal [(key, JSVal.str pv)] key = .str pv := by
    simp [getVal, List.find?]
  have h1 := hgen [(key, .str pv)] hsingle
  simp [resolveThemeVariables, List.foldlM, h1, Bind.bind, Except.bind]

/-- Witness for C9 at a concrete registry and theme: the registered
placeholder `#00000100` backs the name `primary`, which the theme does
not define, and the pass fails naming `primary`. -/
theorem C9_undefined_color_variable_witness :
    resolveThemeVariables envC9 thC9 vpWitness ()
      [("color", .str "#00000100")] =
      .error (.undefinedColorVariable "primary") :=
  (C9_undefined_color_variable Unit envC9 thC9 vpWitness ()
    [("color", .str "#00000100")] "color" "#00000100" "primary"
    (by decide) (by decide) (by decide) (by decide) (by decide)
    (by decide)).2

/-- C5 counterexample: with the name `big` present in two distinct nested
sub-mappings (sizes → 10px first in depth-first order, colors → 20px
last), the resolver substitutes 20px — the value of the *last* depth-first
match — while the claim's first-match reading predicts 10px. -/
theorem C5_first_match_counterexample :
    resolveThemeVariables envC5 thC5 vpWitness () [("color", .str "#PH1")] =
      .ok [("color", .str "20px")] ∧
    ((firstDfsMatch thC5.tree "big").bind
      (fun cs => childOf cs "big")).map jtreeToVal =
      some (.str "10px") ∧
    (JSVal.str "20px") ≠ .str "10px" := by decide

/-- C5 (amended): `findNestedObj` returns the last nesting level, in the
depth-first visit order of the `JSON.stringify` replacer, that holds the
searched name truthily; and a color property whose value is a registered
placeholder is substituted with that level's entry for the name. -/
theorem C5_last_depth_first_match :
    (∀ (t : JTree) (k : String), findNestedObj t k = lastDfsMatch t k) ∧
    (∀ (U : Type) (env : ResolveEnv U) (theme : Theme) (wd : ScaledSize)
      (units : U) (style : StyleObj) (key pv name : String)
      (m : List (String × JTree)) (c : JTree),
      key ≠ "elevation" → key ≠ "cursor" →
      env.colorAttrs.contains key = true →
      env.lengthAttrs.contains key = false →
      getVal style key = .str pv →
      mapGet env.vars.nameForHex pv = some name →
      findNestedObj theme.tree name = some m →
      childOf m name = some c → jtreeTruthy c = true →
      processKey env theme wd units style key =
        .ok (setVal style key (jtreeToVal c))) := by
  constructor
  · exact findNestedObj_eq_lastDfsMatch
  · intro U env theme wd units style key pv name m c hke hkc hcol hlen hv2
      hreg hfind hchild htru
    have hmem : key ∈ env.colorAttrs := by simpa using hcol
    have hnmem : key ∉ env.lengthAttrs := by simpa using hlen
    simp [processKey, hke, hkc, hmem, hnmem, hv2, hreg, hfind, hchild, htru,
      Bind.bind, Except.bind, pure, Except.pure]

/-- Witness for C5 at the two-mapping theme: the search yields the last
depth-first match and the property is substituted with its value 20px. -/
theorem C5_last_depth_first_match_witness :
    findNestedObj thC5.tree "big" = lastDfsMatch thC5.tree "big" ∧
    processKey envC5 thC5 vpWitness () [("color", .str "#PH1")] "color" =
      .ok [("color", .str "20px")] := by
  refine ⟨C5_last_depth_first_match.1 thC5.tree "big", ?_⟩
  have h := C5_last_depth_first_match.2 Unit envC5 thC5 vpWitness ()
    [("color", .str "#PH1")] "color" "#PH1" "big"
    [("big", JTree.leaf (.str "20px"))] (JTree.leaf (.str "20px"))
    (by decide) (by decide) (by decide) (by decide) (by decide) (by decide)
    (by rfl) (by rfl) (by decide)
  rw [h]
  decide

/-! ## Lemmas: characters of the canonical number rendering -/

theorem digitChar10_isDigit (d : Nat) (h : d < 10) :
    (digitChar10 d).isDigit = true := by
  interval_cases d <;> decide

theorem natDigitsGo_digits (fuel : Nat) :
    ∀ n, n ≤ fuel → ∀ c ∈ natDigitsGo fuel n, c.isDigit = true := by
  induction fuel with
  | zero =>
    intro n hn c hc
    interval_cases n
    simp [natDigitsGo] at hc
    subst hc
    decide
  | succ fuel ih =>
    intro n hn c hc
    rw [natDigitsGo] at hc
    by_cases h10 : n < 10
    · simp [h10] at hc
      subst hc
      exact digitChar10_isDigit n h10
    · simp [h10] at hc
      rcases hc with hc | hc
      · exact ih (n / 10) (by omega) c hc
      · subst hc
        exact digitChar10_isDigit _ (Nat.mod_lt _ (by omega))

theorem natDigits_digits (n : Nat) :
    ∀ c ∈ natDigits n, c.isDigit = true :=
  natDigitsGo_digits n n (Nat.le_refl n)

theorem natDigitsGo_ne_nil (fuel n : Nat) : natDigitsGo fuel n ≠ [] := by
  cases fuel with
  | zero => simp [natDigitsGo]
  | succ fuel =>
    rw [natDigitsGo]
    by_cases h10 : n < 10 <;> simp [h10]

theorem fracDigits_digits (fuel : Nat) :
    ∀ num den, (num < den ∨ den = 0) →
      ∀ c ∈ fracDigits num den fuel, c.isDigit = true := by
  induction fuel with
  | zero => intro num den _ c hc; simp [fracDigits] at hc
  | succ fuel ih =>
    intro num den hlt c hc
    rw [fracDigits] at hc
    by_cases h0 : num = 0
    · simp [h0] at hc
    · simp [h0] at hc
      rcases hc with hc | hc
      · subst hc
        refine digitChar10_isDigit _ ?_
        rcases hlt with hlt | hlt
        · exact Nat.div_lt_of_lt_mul (by omega)
        · simp [hlt]
      · refine ih (num * 10 % den) den ?_ c hc
        rcases hlt with hlt | hlt
        · exact Or.inl (Nat.mod_lt _ (by omega))
        · exact Or.inr hlt

theorem renderQ_chars (q : Q) :
    ∀ c ∈ (renderQ q).data, isRenderChar c = true := by
  intro c hc
  rw [renderQ] at hc
  simp only [String.data_append] at hc
  rcases List.mem_append.mp hc with hc | hc
  · rcases List.mem_append.mp hc with hc | hc
    · by_cases hneg : q.num < 0
      · simp [hneg] at hc
        subst hc
        decide
      · simp [hneg] at hc
    · have : c.isDigit = true := natDigits_digits _ c hc
      simp [isRenderChar, this]
  · by_cases hemp : (fracDigits (q.num.natAbs % q.den) q.den 40).isEmpty
    · simp [hemp] at hc
    · simp [hemp, String.data_append] at hc
      rcases hc with hc | hc
      · subst hc
        decide
      · have : c.isDigit = true := by
          refine fracDigits_digits 40 _ q.den ?_ c hc
          by_cases hd : q.den = 0
          · exact Or.inr hd
          · exact Or.inl (Nat.mod_lt _ (by omega))
        simp [isRenderChar, this]

theorem renderQ_data_ne_nil (q : Q) : (renderQ q).data ≠ [] := by
  rw [renderQ]
  simp only [String.data_append]
  intro h
  rcases List.append_eq_nil.mp h with ⟨h1, _⟩
  rcases List.append_eq_nil.mp h1 with ⟨_, h3⟩
  exact natDigitsGo_ne_nil _ _ h3

/-! ## Lemmas: removing the magnitude rendering never touches the unit -/

theorem replaceFirstL_of_disjoint (pat : List Char) (hpat : pat ≠ []) :
    ∀ (l : List Char), (∀ c ∈ pat, ∀ d ∈ l, c ≠ d) →
      replaceFirstL l pat = l := by
  intro l
  induction l with
  | nil => intro _; rfl
  | cons d rest ih =>
    intro hd
    rw [replaceFirstL]
    have hnp : pat.isPrefixOf (d :: rest) = false := by
      cases pat with
      | nil => exact absurd rfl hpat
      | cons p ps =>
        by_contra hcon
        have hpre : (p :: ps) <+: (d :: rest) :=
          List.isPrefixOf_iff_prefix.mp (by
            cases h2 : (p :: ps).isPrefixOf (d :: rest)
            · exact absurd h2 hcon
            · rfl)
        obtain ⟨t, ht⟩ := hpre
        have : p = d := by
          have := congrArg (fun l => l.head?) ht
          simpa using this
        exact hd p (by simp) d (by simp) this
    rw [hnp]
    simp only [Bool.false_eq_true, if_false, List.cons.injEq, true_and]
    exact ih (fun c hc d2 hd2 => hd c hc d2 (by simp [hd2]))

theorem replaceFirstL_append (pat u : List Char) (hpat : pat ≠ [])
    (hdisj : ∀ c ∈ pat, ∀ d ∈ u, c ≠ d) :
    ∀ (mag : List Char),
      replaceFirstL (mag ++ u) pat = replaceFirstL mag pat ++ u := by
  intro mag
  induction mag with
  | nil =>
    simp only [List.nil_append]
    rw [replaceFirstL_of_disjoint pat hpat u hdisj]
    simp [replaceFirstL]
  | cons c m ih =>
    rw [List.cons_append]
    by_cases hpre : pat.isPrefixOf (c :: (m ++ u)) = true
    · have hpre1 : pat <+: (c :: (m ++ u)) :=
        List.isPrefixOf_iff_prefix.mp hpre
      have hpre1b : pat <+: (c :: m) ++ u := by
        rw [List.cons_append]
        exact hpre1
      have hlen : pat.length ≤ (c :: m).length := by
        by_contra hgt
        have hcm : (c :: m) <+: pat :=
          List.prefix_of_prefix_length_le (List.prefix_append _ _) hpre1b
            (by omega)
        obtain ⟨r, hr⟩ := hcm
        have hru : r <+: u := by
          have : (c :: m) ++ r <+: (c :: m) ++ u := hr ▸ hpre1b
          exact (List.prefix_append_right_inj _).mp this
        cases r with
        | nil =>
          rw [List.append_nil] at hr
          rw [← hr] at hgt
          simp at hgt
        | cons x r2 =>
          have hxpat : x ∈ pat := by
            rw [← hr]
            simp
          have hxu : x ∈ u := hru.subset (by simp)
          exact hdisj x hxpat x hxu rfl
      have hpre2 : pat.isPrefixOf (c :: m) = true := by
        rw [List.isPrefixOf_iff_prefix]
        exact List.prefix_of_prefix_length_le hpre1b
          (List.prefix_append _ _) hlen
      have hLHS : replaceFirstL (c :: (m ++ u)) pat =
          (c :: (m ++ u)).drop pat.length := by
        rw [replaceFirstL, hpre]
        simp
      have hRHS : replaceFirstL (c :: m) pat =
          (c :: m).drop pat.length := by
        rw [replaceFirstL, hpre2]
        simp
      have hform : c :: (m ++ u) = (c :: m) ++ u :=
        (List.cons_append c m u).symm
      rw [hLHS, hRHS, hform, List.drop_append_eq_append_drop]
      have hz : pat.length - (c :: m).length = 0 := by
        simp only [List.length_cons] at hlen ⊢
        omega
      rw [hz, List.drop_zero]
    · have hpre1 : pat.isPrefixOf (c :: (m ++ u)) = false := by
        cases h2 : pat.isPrefixOf (c :: (m ++ u))
        · rfl
        · exact absurd h2 hpre
      have hpre2 : pat.isPrefixOf (c :: m) = false := by
        cases h2 : pat.isPrefixOf (c :: m)
        · rfl
        · exfalso
          have h3 : pat <+: (c :: m) := List.isPrefixOf_iff_prefix.mp h2
          have h4 : pat <+: (c :: (m ++ u)) := by
            have h5 : (c :: m) <+: ((c :: m) ++ u) := List.prefix_append _ _
            rw [List.cons_append] at h5
            exact h3.trans h5
          have h6 := List.isPrefixOf_iff_prefix.mpr h4
          rw [hpre1] at h6
          exact Bool.noConfusion h6
      have hLHS : replaceFirstL (c :: (m ++ u)) pat =
          c :: replaceFirstL (m ++ u) pat := by
        rw [replaceFirstL, hpre1]
        simp
      rw [hLHS, ih, replaceFirstL, hpre2]
      simp

theorem replaceFirstL_subset (pat : List Char) :
    ∀ (l : List Char), ∀ c ∈ replaceFirstL l pat, c ∈ l := by
  intro l
  induction l with
  | nil => intro c hc; simp [replaceFirstL] at hc
  | cons d rest ih =>
    intro c hc
    rw [replaceFirstL] at hc
    by_cases hpre : pat.isPrefixOf (d :: rest) = true
    · rw [hpre] at hc
      simp at hc
      exact List.drop_subset _ _ hc
    · have : pat.isPrefixOf (d :: rest) = false := by
        cases h2 : pat.isPrefixOf (d :: rest)
        · rfl
        · exact absurd h2 hpre
      rw [this] at hc
      simp at hc
      rcases hc with hc | hc
      · simp [hc]
      · simp [ih c hc]

theorem replaceFirstL_ne_nil (mag pat : List Char) (hne : mag ≠ [])
    (hnp : mag ≠ pat) : replaceFirstL mag pat ≠ [] := by
  cases mag with
  | nil => exact absurd rfl hne
  | cons c m =>
    rw [replaceFirstL]
    by_cases hpre : pat.isPrefixOf (c :: m) = true
    · rw [hpre]
      simp only
      intro h0
      have hp1 : pat <+: (c :: m) := List.isPrefixOf_iff_prefix.mp hpre
      obtain ⟨t, ht⟩ := hp1
      have hlen : (c :: m).length ≤ pat.length := List.drop_eq_nil_iff.mp h0
      have htn : t = [] := by
        have hlt := congrArg List.length ht
        simp only [List.length_append, List.length_cons] at hlt
        simp only [List.length_cons] at hlen
        have : t.length = 0 := by omega
        exact List.length_eq_zero.mp this
      rw [htn, List.append_nil] at ht
      exact hnp ht.symm
    · have : pat.isPrefixOf (c :: m) = false := by
        cases h2 : pat.isPrefixOf (c :: m)
        · rfl
        · exact absurd h2 hpre
      rw [this]
      simp

theorem renderChar_ne_unit (c : Char) (hc : isRenderChar c = true)
    (u : String) (hu : u ∈ unitStrings) : ∀ d ∈ u.data, c ≠ d := by
  intro d hd heq
  subst heq
  simp only [unitStrings, List.mem_cons, List.not_mem_nil, or_false] at hu
  have hfalse : isRenderChar c = false := by
    rcases hu with rfl | rfl | rfl | rfl | rfl
    · exact (by decide :
        ∀ x ∈ ("rem" : String).data, isRenderChar x = false) c hd
    · exact (by decide :
        ∀ x ∈ ("px" : String).data, isRenderChar x = false) c hd
    · exact (by decide :
        ∀ x ∈ ("%" : String).data, isRenderChar x = false) c hd
    · exact (by decide :
        ∀ x ∈ ("vw" : String).data, isRenderChar x = false) c hd
    · exact (by decide :
        ∀ x ∈ ("vh" : String).data, isRenderChar x = false) c hd
  rw [hc] at hfalse
  exact Bool.noConfusion hfalse

/-- C10 counterexample: '+2px' is a well-formed non-zero length string
whose written magnitude '+2' differs from the canonical rendering '2'; the
call does throw UnknownUnit, but the computed unit '+px' contains no digit
character, contradicting the claim's conjunction. -/
theorem C10_digit_unit_counterexample :
    jsParseFloat "+2px" = some (qInt 2) ∧
    renderQ (qInt 2) = "2" ∧ ("+2" : String) ≠ "2" ∧
    resolveLengthUnit (.str "+2px") thWitness vpWitness =
      .error (.unknownUnit "+px" "+2px") ∧
    containsDigit "+px" = false := by decide

/-- C10 (amended): for every length string `mag ++ u` — magnitude text
over sign/dot/digit characters containing a digit, known unit `u`, no
surrounding whitespace — that parses to a non-zero magnitude whose
canonical rendering differs from the written magnitude, the computed unit
is non-empty, is not a known unit (it retains residue of the written
magnitude), and the call throws UnknownUnit naming it, instead of
converting the value. -/
theorem C10_mismatched_magnitude_unknown_unit (mag u : String) (v : Q)
    (th : Theme) (vp : ScaledSize)
    (hchars : ∀ c ∈ mag.data, isMagChar c = true)
    (hdig : ∃ c ∈ mag.data, c.isDigit = true)
    (hu : u ∈ unitStrings)
    (htrim : jsTrim (mag ++ u) = mag ++ u)
    (hp : jsParseFloat (mag ++ u) = some v)
    (hv : qIsZero v = false)
    (hne : renderQ v ≠ mag) :
    stripUnit (mag ++ u) ≠ "" ∧
    stripUnit (mag ++ u) ∉ unitStrings ∧
    resolveLengthUnit (.str (mag ++ u)) th vp =
      .error (.unknownUnit (stripUnit (mag ++ u)) (mag ++ u)) := by
  have hpatne : (renderQ v).data ≠ [] := renderQ_data_ne_nil v
  have hdisj : ∀ c ∈ (renderQ v).data, ∀ d ∈ u.data, c ≠ d :=
    fun c hc => renderChar_ne_unit c (renderQ_chars v c hc) u hu
  have hstrip : (stripUnit (mag ++ u)).data =
      replaceFirstL mag.data (renderQ v).data ++ u.data := by
    rw [stripUnit, htrim, hp]
    show (replaceFirst (mag ++ u) (renderQ v)).data = _
    rw [replaceFirst]
    show replaceFirstL (mag ++ u).data (renderQ v).data = _
    rw [String.data_append]
    exact replaceFirstL_append (renderQ v).data u.data hpatne hdisj mag.data
  have hmagne : mag.data ≠ [] := by
    obtain ⟨c, hc, _⟩ := hdig
    exact List.ne_nil_of_mem hc
  have hmagpat : mag.data ≠ (renderQ v).data := by
    intro he
    exact hne (String.ext he.symm)
  have hmagres : replaceFirstL mag.data (renderQ v).data ≠ [] :=
    replaceFirstL_ne_nil _ _ hmagne hmagpat
  have ha : stripUnit (mag ++ u) ≠ "" := by
    intro h
    have hd2 : (stripUnit (mag ++ u)).data = [] := by rw [h]
    rw [hstrip] at hd2
    exact hmagres (List.append_eq_nil.mp hd2).1
  have hb : stripUnit (mag ++ u) ∉ unitStrings := by
    intro hmem
    cases hq : replaceFirstL mag.data (renderQ v).data with
    | nil => exact hmagres hq
    | cons c0 rest =>
      have hc0 : c0 ∈ mag.data :=
        replaceFirstL_subset (renderQ v).data mag.data c0 (by rw [hq]; simp)
      have hc0m : isMagChar c0 = true := hchars c0 hc0
      have hdata : (stripUnit (mag ++ u)).data = c0 :: (rest ++ u.data) := by
        rw [hstrip, hq]
        simp
      have hhead : (stripUnit (mag ++ u)).data.head? = some c0 := by
        rw [hdata]
        rfl
      simp only [unitStrings, List.mem_cons, List.not_mem_nil,
        or_false] at hmem
      rcases hmem with he | he | he | he | he <;>
        rw [he] at hhead <;> simp at hhead <;> subst hhead <;>
        exact absurd hc0m (by decide)
  have hsne : (mag ++ u) ≠ "" := by
    intro h
    have hd2 : (mag ++ u).data = [] := by rw [h]
    rw [String.data_append] at hd2
    exact hmagne (List.append_eq_nil.mp hd2).1
  have h0 : numIsZero (jsParseFloat (mag ++ u)) = false := by
    rw [hp]
    simpa [numIsZero] using hv
  have hb2 := hb
  simp only [unitStrings, List.mem_cons, List.not_mem_nil, or_false,
    not_or] at hb2
  obtain ⟨hu1, hu2, hu3, hu4, hu5⟩ := hb2
  refine ⟨ha, hb, ?_⟩
  simp [resolveLengthUnit, jsTruthy, jsIsNumber, jsIsString, hsne, h0, ha,
    hu1, hu2, hu3, hu4, hu5]

/-- Witness for C10 at the claim's own example '1.50px': the magnitude
parses to 1.5, canonically rendered '1.5' ≠ '1.50', and the call throws
UnknownUnit with the residual unit '0px'. -/
theorem C10_mismatched_magnitude_witness :
    resolveLengthUnit (.str ("1.50" ++ "px")) thWitness vpWitness =
      .error (.unknownUnit "0px" "1.50px") := by
  have h := C10_mismatched_magnitude_unknown_unit "1.50" "px" ⟨150, 100⟩
    thWitness vpWitness (by decide) (by decide) (by decide) (by decide)
    (by decide) (by decide) (by decide)
  rw [h.2.2]
  decide

end StyledNative
